import Mathlib

/-!
Shallow embedding of `thinc/shims/pytorch.py` (the `PyTorchShim` class) and
proofs about its operations.

Conventions of the embedding:
* Python strings are Lean `String`; byte strings are `List Nat` (one entry per
  byte/word).  Foreign (PyTorch) tensors and native (numpy) arrays both carry
  their raw data as `List Nat`; `xp2torch` / `torch2xp` are the bidirectional
  conversions between the two representations, which the spec declares faithful
  and which we therefore model as the identity on the carried data.
* Python exceptions are the `PyErr` type; an operation that can raise returns
  `Except PyErr _` or a pair `Option PyErr × _` when the state at the moment of
  the failure matters.
* Mutation is modelled by explicit state passing.
-/

namespace ThincPT

/-! ## Small string machinery (Python `str.startswith` / `str.replace`) -/

/-- Boolean test that the first list is an initial segment of the second. -/
def listIsPfx : List Char → List Char → Bool
  | [], _ => true
  | _ :: _, [] => false
  | a :: as, b :: bs => a == b && listIsPfx as bs

/-- Boolean test that `old` occurs as a contiguous segment somewhere in `s`. -/
def occursIn (old : List Char) : List Char → Bool
  | [] => listIsPfx old []
  | c :: t => listIsPfx old (c :: t) || occursIn old t

/-- Fuel-indexed worker for Python `str.replace`: scans `s` left to right and
replaces every non-overlapping occurrence of `old` by `new`.  Fuel
`s.length` is always enough when `old` is nonempty. -/
def pyReplaceAux (old new : List Char) : Nat → List Char → List Char
  | _, [] => []
  | 0, s => s
  | fuel + 1, c :: t =>
    if listIsPfx old (c :: t) then
      new ++ pyReplaceAux old new fuel ((c :: t).drop old.length)
    else
      c :: pyReplaceAux old new fuel t

/-- Python `s.replace(old, new)`: every occurrence of `old` in `s` is replaced
by `new`, scanning left to right.  The `old = ""` case is never exercised by
the shim (the namespace key is always nonempty), so it is modelled as the
identity. -/
def pyReplace (s old new : List Char) : List Char :=
  if old.isEmpty then s else pyReplaceAux old new s.length s

/-- Python `k.startswith(p)` on strings. -/
def strStartsWith (p s : String) : Bool :=
  listIsPfx p.toList s.toList

/-- Python `s.replace(old, new)` on strings. -/
def strReplace (s old new : String) : String :=
  String.mk (pyReplace s.toList old.toList new.toList)

/-- First value bound to `k` in an association list (Python `dict` lookup). -/
def lookupT {β : Type} : List (String × β) → String → Option β
  | [], _ => none
  | (k, v) :: t, key => if k = key then some v else lookupT t key

/-! ## Core data model -/

/-- Raw data carried by a PyTorch tensor (its binary encoding, word by word). -/
abbrev Tensor : Type := List Nat

/-- Raw data carried by a native (numpy/cupy) array. -/
abbrev Arr : Type := List Nat

/-- Conversion of a native array to a PyTorch tensor (`thinc.util.xp2torch`).
The spec declares the conversion bidirectional and faithful, so on the carried
data it is the identity. -/
def xp2torch (v : Arr) : Tensor := v

/-- Conversion of a PyTorch tensor to a native array (`thinc.util.torch2xp`),
the inverse direction of `xp2torch`. -/
def torch2xp (v : Tensor) : Arr := v

/-- PyTorch `tensor.clone()`: a deep copy; on the carried data, the identity. -/
def tensorClone (v : Tensor) : Tensor := v

/-- Numpy `array.copy()`: a deep copy; on the carried data, the identity. -/
def arrCopy (v : Arr) : Arr := v

/-- The wrapped PyTorch module, reduced to its named-parameter mapping
(`state_dict()`), in iteration order. -/
structure TModel where
  state_dict : List (String × Tensor)
deriving DecidableEq

/-- Python exceptions that the shim code can raise. -/
inductive PyErr
  /-- Lookup of a name that is unbound in the module namespace. -/
  | nameError (n : String)
  /-- Python `dict[k]` with `k` absent. -/
  | keyError (k : String)
  /-- PyTorch runtime error (e.g. a strict `load_state_dict` key mismatch). -/
  | runtimeError
  /-- Failure to decode a byte string as msgpack. -/
  | msgpackError
  /-- Failure of `torch.load` on a malformed blob. -/
  | torchLoadError
  /-- A failure raised by caller-supplied work inside a scope. -/
  | userError
deriving DecidableEq

/-- A Python dictionary key as it appears in a parameter mapping: either a
string, or some other object carrying no `startswith` attribute. -/
inductive PKey
  | str (s : String)
  | other (tag : Nat)
deriving DecidableEq

/-- Constructor-argument dictionary passed to a PyTorch optimizer, and also the
hyperparameter content of one of its parameter groups.  `none` fields model
keys absent from the Python `args` dict. -/
structure OptArgs where
  lr : ℚ
  weight_decay : ℚ
  betas : Option (ℚ × ℚ)
  eps : Option ℚ
  momentum : Option ℚ
deriving DecidableEq

/-- The PyTorch optimizer classes the adapter can select. -/
inductive OptCls
  | AdamW
  | Adam
deriving DecidableEq

/-- A constructed PyTorch optimizer object: its class, the set of model
parameters it was bound to at construction time (by name), and its parameter
groups (a single group, created from the constructor arguments). -/
structure PTOptimizer where
  cls : OptCls
  bound_params : List String
  param_groups : List OptArgs
deriving DecidableEq

/-- The `PyTorchShim` instance state: its identity (`self.id`), the wrapped
model (`self._model`), the lazily created optimizer (`self._optimizer`), the
config blob (`self.cfg`, an opaque serializable value, carried as raw bytes),
plus a ghost counter of how many foreign optimizer objects have been
constructed (incremented exactly where the Python code calls the optimizer
class constructor). -/
structure ShimState where
  id : Nat
  model : TModel
  optimizer : Option PTOptimizer
  cfg : List Nat
  nr_constructed : Nat
deriving DecidableEq

/-- The generic thinc optimizer, as seen by the shim: hyperparameter fields
plus the averaging stores.  `grad_clip = 0` models a falsy (`None`/`0.0`)
threshold; `averages = none` models an absent/disabled averages store.
`nr_update` is a `defaultdict(int)`: total, defaulting to `0`. -/
structure Optimizer where
  learn_rate : ℚ
  L2 : ℚ
  b1 : ℚ
  b2 : ℚ
  eps : ℚ
  grad_clip : ℚ
  L2_is_weight_decay : Bool
  averages : Option (String → Option Arr)
  nr_update : String → Nat

/-- The key namespace of one shim: `f"pytorch_{self.id}_"`. -/
def keyPfx (idn : Nat) : String :=
  "pytorch_" ++ toString idn ++ "_"

/-! ## Foreign model operations (PyTorch, consumed interface) -/

/-- PyTorch `module.load_state_dict(sd)` with the default `strict=True`: the
key set of `sd` must coincide with the key set of the module, otherwise a
runtime error is raised; on success every parameter takes the value bound to
its name in `sd`. -/
def loadStateDict (m : TModel) (sd : List (String × Tensor)) : Except PyErr TModel :=
  let mkeys := m.state_dict.map Prod.fst
  let skeys := sd.map Prod.fst
  if mkeys.all (fun k => skeys.contains k) && skeys.all (fun k => mkeys.contains k) then
    Except.ok ⟨m.state_dict.map (fun nv => (nv.1, (lookupT sd nv.1).getD nv.2))⟩
  else
    Except.error PyErr.runtimeError

/-! ## `use_params` (lines 90-103 of the source) -/

/-- The `state_dict` accumulated by the loop at the top of `use_params`:
`for k, v in params.items(): if hasattr(k, "startswith") and
k.startswith(key_prefix): state_dict[k.replace(key_prefix, "")] = xp2torch(v)`.
Only `PKey.str` keys carry a `startswith` attribute. -/
def useParamsStateDict (idn : Nat) (params : List (PKey × Arr)) : List (String × Tensor) :=
  params.filterMap (fun kv =>
    match kv.1 with
    | PKey.str s =>
        if strStartsWith (keyPfx idn) s then
          some (strReplace s (keyPfx idn) "", xp2torch kv.2)
        else
          none
    | PKey.other _ => none)

/-- The `use_params` generator-based context manager, applied to
caller-supplied work.  `work` receives the model visible inside the scope and
returns `(some e, m)` when it raises `e` leaving the model in state `m`, or
`(none, m)` on normal completion.  The result is the raised error (if any) and
the final model state.

The translation follows the source line by line: build `state_dict`; if it is
nonempty, snapshot `backup` (cloned), load `state_dict`, yield, and then — only
when the yield RETURNS NORMALLY — load `backup` back.  The generator body has
no `try`/`finally`, so when the work raises, the exception propagates from the
`yield` and the `load_state_dict(backup)` line after it never runs. -/
def use_params (shim : ShimState) (params : List (PKey × Arr))
    (work : TModel → Option PyErr × TModel) : Option PyErr × TModel :=
  let state_dict := useParamsStateDict shim.id params
  if state_dict.isEmpty then
    work shim.model
  else
    let backup := shim.model.state_dict.map (fun nv => (nv.1, tensorClone nv.2))
    match loadStateDict shim.model state_dict with
    | Except.error e => (some e, shim.model)
    | Except.ok m1 =>
      match work m1 with
      | (some e, m2) => (some e, m2)
      | (none, m2) =>
        match loadStateDict m2 backup with
        | Except.error e => (some e, m2)
        | Except.ok m3 => (none, m3)

/-! ## Optimizer adapter (`_get_pytorch_optimizer`, lines 66-89) -/

/-- Class and constructor-argument selection of `_get_pytorch_optimizer`
(lines 66-82).  The `args` dict starts as `{"lr": ..., "weight_decay": ...}`.
When both moment coefficients are nonzero, `betas` and `eps` are added and an
Adam-family class is chosen.  Otherwise the line `cls = thinc.optim.SGD` runs:
the module `thinc/shims/pytorch.py` never binds the name `thinc` (its imports
are `torch`, `srsly`, `contextlib`, `BytesIO` and relative imports), so that
lookup raises `NameError` (the name `thinc` is unbound) and the subsequent
`args["momentum"] = sgd.b1` line is never reached. -/
def optClsAndArgs (sgd : Optimizer) : Except PyErr (OptCls × OptArgs) :=
  let args : OptArgs :=
    { lr := sgd.learn_rate
      weight_decay := sgd.L2
      betas := none
      eps := none
      momentum := none }
  if sgd.b1 ≠ 0 ∧ sgd.b2 ≠ 0 then
    let args := { args with betas := some (sgd.b1, sgd.b2), eps := some sgd.eps }
    let cls := if sgd.L2_is_weight_decay then OptCls.AdamW else OptCls.Adam
    Except.ok (cls, args)
  else
    Except.error (PyErr.nameError "thinc")

/-- Python `param_group.update(args)`: dictionary update of one parameter
group with the freshly derived argument dict; a key absent from `args`
(modelled by a `none` field) leaves the group entry unchanged. -/
def groupUpdate (g args : OptArgs) : OptArgs :=
  { lr := args.lr
    weight_decay := args.weight_decay
    betas := match args.betas with | some b => some b | none => g.betas
    eps := match args.eps with | some e => some e | none => g.eps
    momentum := match args.momentum with | some m => some m | none => g.momentum }

/-- Lines 83-89 of the source: lazy one-shot construction.  If
`self._optimizer is None`, construct `cls(self._model.parameters(), **args)`
(binding the full parameter set of the model and creating one parameter group
from `args`) and store it; otherwise update every existing parameter group in
place with `args`.  Returns the optimizer together with the new shim state. -/
def getPytorchOptimizer (shim : ShimState) (sgd : Optimizer) :
    Except PyErr (PTOptimizer × ShimState) :=
  match optClsAndArgs sgd with
  | Except.error e => Except.error e
  | Except.ok (cls, args) =>
    match shim.optimizer with
    | none =>
      let opt : PTOptimizer :=
        { cls := cls
          bound_params := shim.model.state_dict.map Prod.fst
          param_groups := [args] }
      Except.ok (opt, { shim with
        optimizer := some opt
        nr_constructed := shim.nr_constructed + 1 })
    | some opt =>
      let opt' := { opt with
        param_groups := opt.param_groups.map (fun g => groupUpdate g args) }
      Except.ok (opt', { shim with optimizer := some opt' })

/-! ## Parameter averaging (`_update_pytorch_averages`, lines 105-118) -/

/-- One iteration of the loop body of `_update_pytorch_averages` for the entry
`(name, param)` of the model state dict, acting on the pair
`(averages, nr_update)`.  The update rule `ops.update_averages` of the array
backend is passed in as `avgRule` (modelled from the spec: the backends module
is not under src/; the spec describes it as the moving-average update primitive
parameterized by the current update count). -/
def avgStep (avgRule : Arr → Arr → Nat → Arr) (idn : Nat) (initSteps : Nat)
    (st : (String → Option Arr) × (String → Nat)) (entry : String × Tensor) :
    (String → Option Arr) × (String → Nat) :=
  let key := keyPfx idn ++ entry.1
  let nr1 : String → Nat := fun x => if x = key then st.2 key + 1 else st.2 x
  let xp_param := torch2xp entry.2
  match st.1 key with
  | some avg =>
    (fun x => if x = key then some (avgRule avg xp_param (nr1 key)) else st.1 x, nr1)
  | none =>
    (fun x => if x = key then some (arrCopy xp_param) else st.1 x,
     fun x => if x = key then initSteps else nr1 x)

/-- Embedding of `_update_pytorch_averages(self, sgd, *, init_steps=1)`: early return when
`getattr(sgd, "averages", None) is None`; otherwise fold the loop body over
the model state dict entries. -/
def updatePytorchAverages (avgRule : Arr → Arr → Nat → Arr) (shim : ShimState)
    (sgd : Optimizer) (initSteps : Nat) : Optimizer :=
  match sgd.averages with
  | none => sgd
  | some A =>
    let res := shim.model.state_dict.foldl (avgStep avgRule shim.id initSteps)
      (A, sgd.nr_update)
    { sgd with averages := some res.1, nr_update := res.2 }

/-- Lookup in the (possibly absent) averages store of the optimizer. -/
def avgLookup (sgd : Optimizer) (k : String) : Option Arr :=
  match sgd.averages with
  | none => none
  | some A => A k

/-! ## `finish_update` (lines 56-64) -/

/-- Embedding of `finish_update(self, optimizer)`: obtain/refresh the foreign optimizer,
clip gradients when `optimizer.grad_clip` is truthy, step, zero the gradients,
then update the running averages.  The spec declares the numeric content of
clipping and stepping out of scope (foreign framework, assumed correct and
opaque), so `clipFn` and `stepFn` are taken as parameters: `clipFn` is
`torch.nn.utils.clip_grad_norm_` applied at the threshold, `stepFn` is
`pytorch_opt.step()` acting on the model through the optimizer.
`pytorch_opt.zero_grad()` clears accumulated gradients, which are not part of
the modelled state. -/
def finish_update (stepFn : PTOptimizer → TModel → TModel) (clipFn : ℚ → TModel → TModel)
    (avgRule : Arr → Arr → Nat → Arr) (shim : ShimState) (sgd : Optimizer) :
    Except PyErr (ShimState × Optimizer) :=
  match getPytorchOptimizer shim sgd with
  | Except.error e => Except.error e
  | Except.ok (pytorch_opt, shim1) =>
    let m1 := if sgd.grad_clip ≠ 0 then clipFn sgd.grad_clip shim1.model else shim1.model
    let m2 := stepFn pytorch_opt m1
    let shim2 := { shim1 with model := m2 }
    let sgd' := updatePytorchAverages avgRule shim2 sgd 1
    Except.ok (shim2, sgd')

/-- A sequence of `finish_update` calls on one shim, each with its own view of
the generic optimizer (the caller mutates e.g. `learn_rate` between calls). -/
def runFinishUpdates (stepFn : PTOptimizer → TModel → TModel) (clipFn : ℚ → TModel → TModel)
    (avgRule : Arr → Arr → Nat → Arr) (shim : ShimState) :
    List Optimizer → Except PyErr ShimState
  | [] => Except.ok shim
  | sgd :: rest =>
    match finish_update stepFn clipFn avgRule shim sgd with
    | Except.error e => Except.error e
    | Except.ok (shim', _) => runFinishUpdates stepFn clipFn avgRule shim' rest

/-- The constructor-argument dict produced on the Adam-family path for a given
generic optimizer (used to state what the parameter groups hold). -/
def adamArgs (sgd : Optimizer) : OptArgs :=
  { lr := sgd.learn_rate
    weight_decay := sgd.L2
    betas := some (sgd.b1, sgd.b2)
    eps := some sgd.eps
    momentum := none }

/-! ## `begin_update` and its backprop closure (lines 40-54) -/

/-- A leaf value of an `ArgsKwargs` payload, as Python sees it: a PyTorch
tensor (which always carries a `grad` attribute, holding the accumulated
gradient tensor or `None`), the Python `None` object, or some other object
with no `grad` attribute. -/
inductive PyLeaf
  | tensor (value : Nat) (grad : Option Nat)
  | pynone
  | other (value : Nat)
deriving DecidableEq

/-- The `ArgsKwargs` payload: ordered positional values plus named values. -/
structure ArgsKwargs where
  args : List PyLeaf
  kwargs : List (String × PyLeaf)
deriving DecidableEq

/-- Modelled from the spec: `convert_recursive` lives in `thinc.util`, which
is not under src/.  Per the spec it walks the payload and applies the
conversion to every leaf accepted by the filter, leaving the other leaves
unchanged. -/
def convert_recursive (filt : PyLeaf → Bool) (conv : PyLeaf → PyLeaf)
    (p : ArgsKwargs) : ArgsKwargs :=
  { args := p.args.map (fun l => if filt l then conv l else l)
    kwargs := p.kwargs.map (fun kv => (kv.1, if filt kv.2 then conv kv.2 else kv.2)) }

/-- Python `hasattr(x, "grad")`: true exactly for tensors — every
`torch.Tensor` exposes a `grad` attribute, whether or not a gradient has been
accumulated on it. -/
def hasGradAttr : PyLeaf → Bool
  | PyLeaf.tensor _ _ => true
  | PyLeaf.pynone => false
  | PyLeaf.other _ => false

/-- Python `x.grad` on a tensor: the accumulated gradient tensor when present,
the `None` object otherwise.  On non-tensors the conversion is never applied
by the closure (the filter rejects them); modelled as the identity there. -/
def gradAttr : PyLeaf → PyLeaf
  | PyLeaf.tensor _ (some g) => PyLeaf.tensor g none
  | PyLeaf.tensor _ none => PyLeaf.pynone
  | PyLeaf.pynone => PyLeaf.pynone
  | PyLeaf.other v => PyLeaf.other v

/-- The output of the wrapped PyTorch model: either a single bare value or a
tuple of values. -/
inductive POut
  | bare (v : Nat)
  | tup (vs : List Nat)
deriving DecidableEq

/-- Embedding of `begin_update(self, inputs)`: run the model on the inputs and return the
output together with the backprop closure.  The source stores
`output = self._model(*inputs.args, **inputs.kwargs)` and returns it as is —
no tuple normalization is performed, although the docstring announces one.

The closure body is `torch.autograd.backward(*grads.args, **grads.kwargs)`
followed by `convert_recursive(lambda x: hasattr(x, "grad"), lambda x: x.grad,
inputs)`.  The backward call is the foreign reverse-mode engine (opaque per
the spec); its observable effect is that the captured `inputs` payload now
carries accumulated gradients in the `grad` fields of its tensors.  The
closure argument below therefore stands for the captured payload as it stands
after the backward call, and the closure performs the gradient readback on
it. -/
def begin_update (forward : ArgsKwargs → POut) (inputs : ArgsKwargs) :
    POut × (ArgsKwargs → ArgsKwargs) :=
  let output := forward inputs
  (output, fun inputsAfterBackward =>
    convert_recursive hasGradAttr gradAttr inputsAfterBackward)

/-! ## Serialization (`to_bytes` / `from_bytes`, lines 126-147)

The two external serializers — `srsly.msgpack_dumps`/`msgpack_loads` (a
compact deterministic binary map encoding) and `torch.save`/`torch.load` (the
native binary tensor format) — are third-party libraries the spec assumes
correct and opaque.  Both are modelled as concrete, executable, invertible
codecs for the shapes the shim actually serializes: a map from string field
names to byte blobs (the envelope) and a map from parameter names to tensor
data (the state dict). -/

/-- Length-prefixed encoding of a raw block of bytes. -/
def encChunk (b : List Nat) : List Nat := b.length :: b

/-- Decoder for `encChunk`; returns the block and the remaining input. -/
def decChunk (l : List Nat) : Option (List Nat × List Nat) :=
  match l with
  | [] => none
  | n :: rest => if n ≤ rest.length then some (rest.take n, rest.drop n) else none

/-- Length-prefixed encoding of a string (one word per character). -/
def encStr (s : String) : List Nat := encChunk (s.toList.map Char.toNat)

/-- Decoder for `encStr`. -/
def decStr (l : List Nat) : Option (String × List Nat) :=
  match decChunk l with
  | none => none
  | some (cs, rest) => some (String.mk (cs.map Char.ofNat), rest)

/-- Encoding of one `name ↦ blob` entry. -/
def encEntry (e : String × List Nat) : List Nat := encStr e.1 ++ encChunk e.2

/-- Encoding of a map from string names to byte blobs: an entry count followed
by the encoded entries, in order. -/
def encDict (d : List (String × List Nat)) : List Nat :=
  d.length :: d.foldr (fun e acc => encEntry e ++ acc) []

/-- Decoder for a known number of entries; returns them and the rest. -/
def decEntries : Nat → List Nat → Option (List (String × List Nat) × List Nat)
  | 0, l => some ([], l)
  | n + 1, l =>
    match decStr l with
    | none => none
    | some (s, r1) =>
      match decChunk r1 with
      | none => none
      | some (b, r2) =>
        match decEntries n r2 with
        | none => none
        | some (es, r3) => some ((s, b) :: es, r3)

/-- Full decoder for `encDict`: the whole input must be consumed. -/
def decDict (l : List Nat) : Option (List (String × List Nat)) :=
  match l with
  | [] => none
  | n :: rest =>
    match decEntries n rest with
    | some (es, []) => some es
    | _ => none

/-- External `srsly.msgpack_dumps` on the envelope map (external library, modelled as a
faithful codec). -/
def msgpack_dumps (d : List (String × List Nat)) : List Nat := encDict d

/-- External `srsly.msgpack_loads` (modelled as the inverse codec;
`none` is a malformed-input failure). -/
def msgpack_loads (l : List Nat) : Option (List (String × List Nat)) := decDict l

/-- External `torch.save(state_dict, filelike)` followed by `getvalue()`: the foreign
native binary tensor encoding of the state dict (external, modelled as a
faithful codec). -/
def torch_save (sd : List (String × Tensor)) : List Nat := encDict sd

/-- External `torch.load(filelike, map_location)`: inverse of `torch_save`; `none` is a
malformed-blob failure.  The `map_location` resolution (host memory, since the
current array backend reports a cpu device) does not affect the carried
data. -/
def torch_load (l : List Nat) : Option (List (String × Tensor)) := decDict l

/-- Embedding of `to_bytes(self)`: serialize the model state dict with the foreign tensor
serializer, wrap it with the config blob into the two-field envelope
`{"config": self.cfg, "state": weights_bytes}`, and encode the envelope. -/
def to_bytes (shim : ShimState) : List Nat :=
  let weights_bytes := torch_save shim.model.state_dict
  msgpack_dumps [("config", shim.cfg), ("state", weights_bytes)]

/-- Embedding of `from_bytes(self, bytes_data)`: decode the envelope, assign
`self.cfg = msg["config"]`, then read `msg["state"]`, `torch.load` it and
`load_state_dict` the result (`get_current_ops()` reports a cpu backend, so
`map_location` is host memory; the final `self._model.to(map_location)` moves
the model there, which does not change the carried parameter data).

The result records the raised error, if any, together with the shim state at
that moment: in particular `self.cfg` is assigned BEFORE `msg["state"]` is
looked up, so a `KeyError` on the `state` field propagates with the config already
overwritten. -/
def from_bytes (shim : ShimState) (bytes_data : List Nat) : Option PyErr × ShimState :=
  match msgpack_loads bytes_data with
  | none => (some PyErr.msgpackError, shim)
  | some msg =>
    match lookupT msg "config" with
    | none => (some (PyErr.keyError "config"), shim)
    | some cfgBlob =>
      let shim1 := { shim with cfg := cfgBlob }
      match lookupT msg "state" with
      | none => (some (PyErr.keyError "state"), shim1)
      | some stateBlob =>
        match torch_load stateBlob with
        | none => (some PyErr.torchLoadError, shim1)
        | some sd =>
          match loadStateDict shim1.model sd with
          | Except.error e => (some e, shim1)
          | Except.ok m' => (none, { shim1 with model := m' })

/-! ## Concrete instances used in closed statements -/

/-- A concrete shim with one parameter `w`, used in closed statements. -/
def shim0 : ShimState :=
  { id := 1, model := ⟨[("w", [0])]⟩, optimizer := none, cfg := [7], nr_constructed := 0 }

/-- A generic optimizer with no averages store. -/
def sgdNoAvg : Optimizer :=
  { learn_rate := 1, L2 := 0, b1 := 1, b2 := 1, eps := 0, grad_clip := 0,
    L2_is_weight_decay := false, averages := none, nr_update := fun _ => 0 }

/-- A generic optimizer with an empty averages store. -/
def sgdEmptyAvg : Optimizer :=
  { sgdNoAvg with averages := some (fun _ => none) }

/-- A generic optimizer whose averages store already tracks `pytorch_1_w`. -/
def sgdOneAvg : Optimizer :=
  { sgdNoAvg with
    averages := some (fun x => if x = "pytorch_1_w" then some [4] else none)
    nr_update := fun x => if x = "pytorch_1_w" then 5 else 0 }

/-- The same generic optimizer as `sgdNoAvg` with a different learning rate. -/
def sgdLr2 : Optimizer := { sgdNoAvg with learn_rate := 2 }


/-! ## Supporting lemmas about the string machinery -/

lemma listIsPfx_length : ∀ a b : List Char, listIsPfx a b = true → a.length ≤ b.length := by
  intro a
  induction a with
  | nil => intro b _; exact Nat.zero_le _
  | cons x xs ih =>
    intro b h
    cases b with
    | nil => simp [listIsPfx] at h
    | cons y ys =>
      simp only [listIsPfx, Bool.and_eq_true] at h
      simpa [List.length_cons] using Nat.succ_le_succ (ih ys h.2)

lemma listIsPfx_append (a b : List Char) : listIsPfx a (a ++ b) = true := by
  induction a with
  | nil => rfl
  | cons x xs ih => simp [listIsPfx, ih]

lemma len_pyReplaceAux_le (old : List Char) :
    ∀ fuel s, (pyReplaceAux old [] fuel s).length ≤ s.length := by
  intro fuel
  induction fuel with
  | zero =>
    intro s
    cases s with
    | nil => simp [pyReplaceAux]
    | cons c t => exact Nat.le_refl _
  | succ n ih =>
    intro s
    cases s with
    | nil => simp [pyReplaceAux]
    | cons c t =>
      show (if listIsPfx old (c :: t) = true then
              [] ++ pyReplaceAux old [] n ((c :: t).drop old.length)
            else
              c :: pyReplaceAux old [] n t).length ≤ (c :: t).length
      by_cases hp : listIsPfx old (c :: t) = true
      · rw [if_pos hp, List.nil_append]
        exact Nat.le_trans (ih _) (Nat.le_trans (List.length_drop _ _ ▸ Nat.sub_le _ _) (Nat.le_refl _))
      · rw [if_neg hp, List.length_cons, List.length_cons]
        exact Nat.succ_le_succ (ih t)

lemma occursIn_nil (old : List Char) (hold : old ≠ []) : occursIn old [] = false := by
  cases old with
  | nil => exact absurd rfl hold
  | cons x xs => rfl

lemma pyReplaceAux_removes (old : List Char) (hold : old ≠ []) :
    ∀ fuel s, s.length ≤ fuel → occursIn old s = true →
      (pyReplaceAux old [] fuel s).length + old.length ≤ s.length := by
  intro fuel
  induction fuel with
  | zero =>
    intro s hf hocc
    cases s with
    | nil => rw [occursIn_nil old hold] at hocc; exact absurd hocc (by simp)
    | cons c t => simp at hf
  | succ n ih =>
    intro s hf hocc
    cases s with
    | nil => rw [occursIn_nil old hold] at hocc; exact absurd hocc (by simp)
    | cons c t =>
      show (if listIsPfx old (c :: t) = true then
              [] ++ pyReplaceAux old [] n ((c :: t).drop old.length)
            else
              c :: pyReplaceAux old [] n t).length + old.length ≤ (c :: t).length
      by_cases hp : listIsPfx old (c :: t) = true
      · rw [if_pos hp, List.nil_append]
        have hlen : old.length ≤ (c :: t).length := listIsPfx_length old _ hp
        have h1 : (pyReplaceAux old [] n ((c :: t).drop old.length)).length
            ≤ (c :: t).length - old.length := by
          have h2 := len_pyReplaceAux_le old n ((c :: t).drop old.length)
          simpa [List.length_drop] using h2
        calc (pyReplaceAux old [] n ((c :: t).drop old.length)).length + old.length
            ≤ ((c :: t).length - old.length) + old.length := Nat.add_le_add_right h1 _
          _ = (c :: t).length := Nat.sub_add_cancel hlen
      · rw [if_neg hp, List.length_cons]
        have hocc2 : (listIsPfx old (c :: t) || occursIn old t) = true := hocc
        have hocc' : occursIn old t = true := by
          rcases (Bool.or_eq_true _ _).mp hocc2 with h | h
          · exact absurd h hp
          · exact h
        have hf' : t.length ≤ n := by
          rw [List.length_cons] at hf
          omega
        have h3 := ih t hf' hocc'
        rw [List.length_cons]
        omega

lemma pyReplace_interior (old rest : List Char) (hold : old ≠ [])
    (hocc : occursIn old rest = true) : pyReplace (old ++ rest) old [] ≠ rest := by
  cases old with
  | nil => exact absurd rfl hold
  | cons o ot =>
    intro heq
    have hpf : listIsPfx (o :: ot) (o :: (ot ++ rest)) = true :=
      listIsPfx_append (o :: ot) rest
    have hdrop : (o :: (ot ++ rest)).drop (o :: ot).length = rest :=
      List.drop_left (o :: ot) rest
    have step1 : pyReplace ((o :: ot) ++ rest) (o :: ot) [] =
        pyReplaceAux (o :: ot) [] ((ot ++ rest).length) rest := by
      show (if listIsPfx (o :: ot) (o :: (ot ++ rest)) = true then
              [] ++ pyReplaceAux (o :: ot) [] ((ot ++ rest).length)
                ((o :: (ot ++ rest)).drop (o :: ot).length)
            else
              o :: pyReplaceAux (o :: ot) [] ((ot ++ rest).length) (ot ++ rest))
          = pyReplaceAux (o :: ot) [] ((ot ++ rest).length) rest
      rw [if_pos hpf, hdrop, List.nil_append]
    have hrest : rest.length ≤ (ot ++ rest).length := by simp
    have hrem := pyReplaceAux_removes (o :: ot) hold ((ot ++ rest).length) rest hrest hocc
    rw [← step1, heq] at hrem
    rw [List.length_cons] at hrem
    omega


/-! ## Claims settled on the string machinery, the bridge and the error paths -/

lemma keyPfx_toList_ne_nil (idn : Nat) : (keyPfx idn).toList ≠ [] := by
  intro h
  have h2 : (keyPfx idn).toList = ("pytorch_" ++ toString idn).data ++ "_".data :=
    String.data_append _ _
  rw [h2] at h
  simp at h

/-- C1: the claim states that `use_params(P)` restores the parameters on every
exit path, including a failure raised inside the scope.  The generator has no
`try`/`finally` around its `yield`, so on the failure path the restore line
never runs: with the substituted value `[5]` loaded over the original `[0]`,
work that raises leaves the model at `[5]`.  The same call with work that
returns normally does restore the original value — the divergence is exactly
the failure path. -/
theorem C1_use_params_failure_path_not_restored :
    (use_params shim0 [(PKey.str "pytorch_1_w", [5])] (fun m => (some PyErr.userError, m))).1
        = some PyErr.userError ∧
    (use_params shim0 [(PKey.str "pytorch_1_w", [5])] (fun m => (some PyErr.userError, m))).2
        ≠ shim0.model ∧
    (use_params shim0 [(PKey.str "pytorch_1_w", [5])] (fun m => (none, m))).2
        = shim0.model := by decide

/-- C2: the claim states that an optimizer with `b1 = 0.9`, `b2 = 0`, `L2 = 0`
makes `finish_update` construct a momentum-SGD foreign optimizer.  On this
configuration the selection takes the non-Adam branch, whose first line is
`cls = thinc.optim.SGD`; the module never binds the name `thinc`, so the call
raises `NameError` instead of constructing anything, for every learning rate,
epsilon, clipping threshold, weight-decay flag and shim state. -/
theorem C2_momentum_sgd_selection_raises :
    ∀ (lr eps gc : ℚ) (flag : Bool) (shim : ShimState)
      (stepFn : PTOptimizer → TModel → TModel) (clipFn : ℚ → TModel → TModel)
      (avgRule : Arr → Arr → Nat → Arr) (av : Option (String → Option Arr))
      (nr : String → Nat),
      finish_update stepFn clipFn avgRule shim
        { learn_rate := lr, L2 := 0, b1 := 9/10, b2 := 0, eps := eps, grad_clip := gc,
          L2_is_weight_decay := flag, averages := av, nr_update := nr }
        = Except.error (PyErr.nameError "thinc") := by
  intro lr eps gc flag shim stepFn clipFn avgRule av nr
  simp [finish_update, getPytorchOptimizer, optClsAndArgs]

/-- C3: the claim (and the docstring of `begin_update` itself) states that a
single bare model output is converted into a one-element tuple before the
backprop closure is returned.  The source returns `output` exactly as the
model produced it: the first component of `begin_update` is always the raw
`forward inputs`, and on a model returning the bare value `7` that output is
`POut.bare 7`, not the one-element tuple `POut.tup [7]`. -/
theorem C3_begin_update_no_tuple_normalization :
    (∀ (f : ArgsKwargs → POut) (inp : ArgsKwargs), (begin_update f inp).1 = f inp) ∧
    (begin_update (fun _ => POut.bare 7) ⟨[], []⟩).1 = POut.bare 7 ∧
    POut.bare 7 ≠ POut.tup [7] :=
  ⟨fun _ _ => rfl, rfl, by decide⟩

/-- C4 counterexample: the claim states that a leaf with no accumulated
gradient is left as-is, never replaced by a null gradient.  Running the
backprop closure on a payload holding one tensor with `grad = None` replaces
that tensor by the Python `None` object (its `grad` attribute), which differs
from the original leaf. -/
theorem C4_counterexample_null_gradient :
    (begin_update (fun _ => POut.tup []) ⟨[], []⟩).2 ⟨[PyLeaf.tensor 5 none], []⟩
        = ⟨[PyLeaf.pynone], []⟩ ∧
    PyLeaf.pynone ≠ PyLeaf.tensor 5 none := by decide

lemma leaf_readback (l : PyLeaf) :
    (if hasGradAttr l then gradAttr l else l)
      = match l with
        | PyLeaf.tensor _ (some g) => PyLeaf.tensor g none
        | PyLeaf.tensor _ none => PyLeaf.pynone
        | l => l := by
  cases l with
  | tensor v g => cases g <;> rfl
  | pynone => rfl
  | other v => rfl

/-- C4 amended: the backprop closure replaces every leaf that carries a `grad`
attribute — that is, every tensor — by that attribute: the accumulated
gradient when one is present, the null value (`None`) when none is, per the
framework convention; leaves without a `grad` attribute are left as-is. -/
theorem C4_backprop_grad_readback (f : ArgsKwargs → POut) (inp p : ArgsKwargs) :
    ((begin_update f inp).2 p).args
        = p.args.map (fun l =>
            match l with
            | PyLeaf.tensor _ (some g) => PyLeaf.tensor g none
            | PyLeaf.tensor _ none => PyLeaf.pynone
            | l => l) ∧
    ((begin_update f inp).2 p).kwargs
        = p.kwargs.map (fun kv => (kv.1,
            match kv.2 with
            | PyLeaf.tensor _ (some g) => PyLeaf.tensor g none
            | PyLeaf.tensor _ none => PyLeaf.pynone
            | l => l)) := by
  constructor
  · simp [begin_update, convert_recursive, leaf_readback]
  · simp [begin_update, convert_recursive, leaf_readback]

/-- C8: on `b1 = 0.9`, `b2 = 0.999`, `eps = 1e-8`, `L2 = 0.01` the adapter
selects AdamW with `betas = (0.9, 0.999)`, `eps = 1e-8`, `weight_decay = 0.01`
when the decoupled-weight-decay flag is set, and plain Adam with the same
betas and eps when it is not, for every learning rate and clipping
threshold. -/
theorem C8_adam_selection :
    ∀ (lr gc : ℚ) (av : Option (String → Option Arr)) (nr : String → Nat),
      optClsAndArgs
        { learn_rate := lr, L2 := 1/100, b1 := 9/10, b2 := 999/1000, eps := 1/100000000,
          grad_clip := gc, L2_is_weight_decay := true, averages := av, nr_update := nr }
        = Except.ok (OptCls.AdamW,
            { lr := lr, weight_decay := 1/100, betas := some (9/10, 999/1000),
              eps := some (1/100000000), momentum := none }) ∧
      optClsAndArgs
        { learn_rate := lr, L2 := 1/100, b1 := 9/10, b2 := 999/1000, eps := 1/100000000,
          grad_clip := gc, L2_is_weight_decay := false, averages := av, nr_update := nr }
        = Except.ok (OptCls.Adam,
            { lr := lr, weight_decay := 1/100, betas := some (9/10, 999/1000),
              eps := some (1/100000000), momentum := none }) := by
  intro lr gc av nr
  constructor <;> simp [optClsAndArgs]

/-- C9 counterexample: the claim states that a malformed envelope causes a
failure with no partial mutation of the live state.  On an envelope holding
only a `config` field, `from_bytes` raises a `KeyError` on the `state` field — but only
after `self.cfg` has already been overwritten with the config carried by the envelope. -/
theorem C9_counterexample_config_mutated :
    (from_bytes shim0 (msgpack_dumps [("config", [9])])).1 = some (PyErr.keyError "state") ∧
    (from_bytes shim0 (msgpack_dumps [("config", [9])])).2.cfg ≠ shim0.cfg := by decide

/-- C9 amended: an envelope missing `config` fails with `KeyError` before any
mutation; an envelope holding `config` but missing `state` fails with
`KeyError` with the config already overwritten by the value from the envelope — the
model parameters and the optimizer are untouched on both paths. -/
theorem C9_from_bytes_missing_field (shim : ShimState) (b : List Nat)
    (msg : List (String × List Nat)) (hdec : msgpack_loads b = some msg) :
    (lookupT msg "config" = none →
        from_bytes shim b = (some (PyErr.keyError "config"), shim)) ∧
    (∀ c, lookupT msg "config" = some c → lookupT msg "state" = none →
        from_bytes shim b = (some (PyErr.keyError "state"), { shim with cfg := c })) := by
  constructor
  · intro h
    simp [from_bytes, hdec, h]
  · intro c hc hs
    simp [from_bytes, hdec, hc, hs]

/-- Witness for C9: concrete envelopes exercising both missing-field cases. -/
theorem C9_from_bytes_missing_field_witness :
    from_bytes shim0 (msgpack_dumps [("state", [1])])
        = (some (PyErr.keyError "config"), shim0) ∧
    from_bytes shim0 (msgpack_dumps [("config", [9])])
        = (some (PyErr.keyError "state"), { shim0 with cfg := [9] }) :=
  ⟨(C9_from_bytes_missing_field shim0 (msgpack_dumps [("state", [1])])
      [("state", [1])] (by decide)).1 (by decide),
   (C9_from_bytes_missing_field shim0 (msgpack_dumps [("config", [9])])
      [("config", [9])] (by decide)).2 [9] (by decide) (by decide)⟩

/-- C10: in `use_params` only keys with a `startswith` attribute (strings) are
considered — other keys contribute nothing; a matching string key is loaded
under the name obtained by replacing EVERY occurrence of the namespace in the
key by the empty string; consequently, whenever the part of the key after the
namespace itself contains the namespace as a substring, the name the value is
loaded under differs from the bare parameter name (the key with only its
leading namespace stripped). -/
theorem C10_use_params_key_handling :
    (∀ idn tag v params,
        useParamsStateDict idn ((PKey.other tag, v) :: params)
          = useParamsStateDict idn params) ∧
    (∀ idn s v params, strStartsWith (keyPfx idn) s = true →
        useParamsStateDict idn ((PKey.str s, v) :: params)
          = (strReplace s (keyPfx idn) "", xp2torch v) :: useParamsStateDict idn params) ∧
    (∀ idn rest, occursIn (keyPfx idn).toList rest.toList = true →
        strReplace (keyPfx idn ++ rest) (keyPfx idn) "" ≠ rest) := by
  refine ⟨?_, ?_, ?_⟩
  · intro idn tag v params
    simp [useParamsStateDict]
  · intro idn s v params h
    simp [useParamsStateDict, h]
  · intro idn rest hocc heq
    have hlist : pyReplace ((keyPfx idn).toList ++ rest.toList) (keyPfx idn).toList []
        ≠ rest.toList :=
      pyReplace_interior _ _ (keyPfx_toList_ne_nil idn) hocc
    apply hlist
    have hdata : (keyPfx idn ++ rest).toList = (keyPfx idn).toList ++ rest.toList :=
      String.data_append _ _
    have := congrArg String.toList heq
    rw [strReplace] at this
    rw [hdata] at this
    exact this

/-- Witness for C10 at a concrete shim identity and key. -/
theorem C10_use_params_key_handling_witness :
    useParamsStateDict 1 [(PKey.other 0, [1])] = useParamsStateDict 1 [] ∧
    useParamsStateDict 1 [(PKey.str "pytorch_1_w", [1])]
      = (strReplace "pytorch_1_w" (keyPfx 1) "", xp2torch [1]) :: useParamsStateDict 1 [] ∧
    strReplace (keyPfx 1 ++ "pytorch_1_w") (keyPfx 1) "" ≠ "pytorch_1_w" :=
  ⟨C10_use_params_key_handling.1 1 0 [1] [],
   C10_use_params_key_handling.2.1 1 "pytorch_1_w" [1] [] (by decide),
   C10_use_params_key_handling.2.2 1 "pytorch_1_w" (by decide)⟩


/-! ## Serialization round trip (C6) -/

lemma decChunk_encChunk (b r : List Nat) : decChunk (encChunk b ++ r) = some (b, r) := by
  show (if b.length ≤ (b ++ r).length then
          some ((b ++ r).take b.length, (b ++ r).drop b.length)
        else none) = some (b, r)
  rw [if_pos (by simp), List.take_left, List.drop_left]

lemma decStr_encStr (s : String) (r : List Nat) : decStr (encStr s ++ r) = some (s, r) := by
  unfold decStr encStr
  rw [decChunk_encChunk]
  show some (String.mk ((s.toList.map Char.toNat).map Char.ofNat), r) = some (s, r)
  have h : (s.toList.map Char.toNat).map Char.ofNat = s.toList := by
    rw [List.map_map]
    refine (List.map_congr_left ?_).trans (List.map_id s.toList)
    intro c _
    exact Char.ofNat_toNat c
  rw [h]
  rfl

lemma decEntries_enc : ∀ (d : List (String × List Nat)) (r : List Nat),
    decEntries d.length ((d.foldr (fun e acc => encEntry e ++ acc) []) ++ r) = some (d, r) := by
  intro d
  induction d with
  | nil => intro r; simp [decEntries]
  | cons e es ih =>
    intro r
    show decEntries (es.length + 1)
        ((encEntry e ++ es.foldr (fun e acc => encEntry e ++ acc) []) ++ r) = some (e :: es, r)
    rw [List.append_assoc]
    unfold encEntry
    rw [List.append_assoc]
    unfold decEntries
    rw [decStr_encStr]
    show (match decChunk (encChunk e.2 ++ (es.foldr (fun e acc => encEntry e ++ acc) [] ++ r)) with
          | none => none
          | some (b, r2) =>
            match decEntries es.length r2 with
            | none => none
            | some (es', r3) => some ((e.1, b) :: es', r3)) = some (e :: es, r)
    rw [decChunk_encChunk]
    show (match decEntries es.length (es.foldr (fun e acc => encEntry e ++ acc) [] ++ r) with
          | none => none
          | some (es', r3) => some ((e.1, e.2) :: es', r3)) = some (e :: es, r)
    rw [ih r]

lemma decDict_encDict (d : List (String × List Nat)) : decDict (encDict d) = some d := by
  have h := decEntries_enc d []
  rw [List.append_nil] at h
  show (match decEntries d.length (d.foldr (fun e acc => encEntry e ++ acc) []) with
        | some (es, []) => some es
        | _ => none) = some d
  rw [h]


lemma lookupT_mem {β : Type} :
    ∀ (l : List (String × β)) (n : String) (v : β),
      (l.map Prod.fst).Nodup → (n, v) ∈ l → lookupT l n = some v := by
  intro l
  induction l with
  | nil => intro n v _ h; simp at h
  | cons e t ih =>
    intro n v hnd hmem
    rcases e with ⟨k, w⟩
    rw [List.map_cons, List.nodup_cons] at hnd
    rcases List.mem_cons.mp hmem with heq | hmem'
    · rcases Prod.mk.injEq .. ▸ heq with ⟨h1, h2⟩
      subst h1; subst h2
      simp [lookupT]
    · have hk : k ≠ n := by
        intro hkn
        subst hkn
        exact hnd.1 (List.mem_map.mpr ⟨(k, v), hmem', rfl⟩)
      show (if k = n then some w else lookupT t n) = some v
      rw [if_neg hk]
      exact ih n v hnd.2 hmem'

lemma loadStateDict_self (m : TModel) (hnodup : (m.state_dict.map Prod.fst).Nodup) :
    loadStateDict m m.state_dict = Except.ok m := by
  unfold loadStateDict
  rw [if_pos ?hc]
  case hc =>
    rw [Bool.and_eq_true]
    constructor <;>
      exact List.all_eq_true.mpr (fun k hk => List.elem_eq_true_of_mem hk)
  congr 1
  have h : m.state_dict.map (fun nv => (nv.1, (lookupT m.state_dict nv.1).getD nv.2))
      = m.state_dict.map id := by
    apply List.map_congr_left
    intro nv hmem
    rcases nv with ⟨n, v⟩
    rw [lookupT_mem m.state_dict n v hnodup hmem]
    rfl
  rcases m with ⟨sd⟩
  simp only at h ⊢
  rw [h, List.map_id]

/-- C6: serializing a shim and deserializing the result reproduces the
parameter values bit-for-bit at the binary tensor encoding and an equal
config, and the serialized envelope decodes to a structured map with exactly
the two fields `config` and `state`. -/
theorem C6_serialization_roundtrip (shim : ShimState)
    (hnodup : (shim.model.state_dict.map Prod.fst).Nodup) :
    from_bytes shim (to_bytes shim) = (none, shim) ∧
    msgpack_loads (to_bytes shim)
      = some [("config", shim.cfg), ("state", torch_save shim.model.state_dict)] := by
  have henv : msgpack_loads (to_bytes shim)
      = some [("config", shim.cfg), ("state", torch_save shim.model.state_dict)] :=
    decDict_encDict _
  refine ⟨?_, henv⟩
  have hcfg : lookupT [("config", shim.cfg), ("state", torch_save shim.model.state_dict)]
      "config" = some shim.cfg := by simp [lookupT]
  have hst : lookupT [("config", shim.cfg), ("state", torch_save shim.model.state_dict)]
      "state" = some (torch_save shim.model.state_dict) := by simp [lookupT]
  have hload : torch_load (torch_save shim.model.state_dict) = some shim.model.state_dict :=
    decDict_encDict _
  have hsd : loadStateDict shim.model shim.model.state_dict = Except.ok shim.model :=
    loadStateDict_self shim.model hnodup
  simp only [from_bytes, henv, hcfg, hst, hload, hsd]

/-- Witness for C6 at a concrete one-parameter shim. -/
theorem C6_serialization_roundtrip_witness :
    from_bytes shim0 (to_bytes shim0) = (none, shim0) ∧
    msgpack_loads (to_bytes shim0)
      = some [("config", shim0.cfg), ("state", torch_save shim0.model.state_dict)] :=
  C6_serialization_roundtrip shim0 (by decide)


/-! ## Parameter averaging (C7) -/

lemma string_append_left_cancel {p a b : String} (h : p ++ a = p ++ b) : a = b := by
  have hd : p.data ++ a.data = p.data ++ b.data := by
    have h1 := congrArg String.data h
    rwa [String.data_append, String.data_append] at h1
  have h2 := List.append_cancel_left hd
  cases a; cases b
  exact congrArg String.mk h2

lemma avgStep_frame (avgRule : Arr → Arr → Nat → Arr) (idn initSteps : Nat)
    (st : (String → Option Arr) × (String → Nat)) (e : String × Tensor) (K : String)
    (h : keyPfx idn ++ e.1 ≠ K) :
    (avgStep avgRule idn initSteps st e).1 K = st.1 K ∧
    (avgStep avgRule idn initSteps st e).2 K = st.2 K := by
  have hne : ¬(K = keyPfx idn ++ e.1) := fun hh => h hh.symm
  unfold avgStep
  cases hd : st.1 (keyPfx idn ++ e.1) <;> simp [hd, hne]

lemma avgStep_at_key (avgRule : Arr → Arr → Nat → Arr) (idn initSteps : Nat)
    (st : (String → Option Arr) × (String → Nat)) (e : String × Tensor) :
    (match st.1 (keyPfx idn ++ e.1) with
     | some avg =>
        (avgStep avgRule idn initSteps st e).1 (keyPfx idn ++ e.1)
            = some (avgRule avg (torch2xp e.2) (st.2 (keyPfx idn ++ e.1) + 1)) ∧
        (avgStep avgRule idn initSteps st e).2 (keyPfx idn ++ e.1)
            = st.2 (keyPfx idn ++ e.1) + 1
     | none =>
        (avgStep avgRule idn initSteps st e).1 (keyPfx idn ++ e.1)
            = some (arrCopy (torch2xp e.2)) ∧
        (avgStep avgRule idn initSteps st e).2 (keyPfx idn ++ e.1) = initSteps) := by
  unfold avgStep
  cases h : st.1 (keyPfx idn ++ e.1) <;> simp [h]

lemma fold_avgStep_frame (avgRule : Arr → Arr → Nat → Arr) (idn initSteps : Nat) :
    ∀ (L : List (String × Tensor)) (st : (String → Option Arr) × (String → Nat)) (K : String),
      (∀ e ∈ L, keyPfx idn ++ e.1 ≠ K) →
      (L.foldl (avgStep avgRule idn initSteps) st).1 K = st.1 K ∧
      (L.foldl (avgStep avgRule idn initSteps) st).2 K = st.2 K := by
  intro L
  induction L with
  | nil => intro st K _; exact ⟨rfl, rfl⟩
  | cons e t ih =>
    intro st K h
    have h1 := avgStep_frame avgRule idn initSteps st e K (h e (List.mem_cons_self e t))
    have h2 := ih (avgStep avgRule idn initSteps st e) K
      (fun e' he' => h e' (List.mem_cons_of_mem e he'))
    rw [List.foldl_cons]
    exact ⟨h2.1.trans h1.1, h2.2.trans h1.2⟩

lemma fold_avgStep_at_key (avgRule : Arr → Arr → Nat → Arr) (idn initSteps : Nat) :
    ∀ (L : List (String × Tensor)) (st : (String → Option Arr) × (String → Nat))
      (name : String) (param : Tensor),
      (L.map Prod.fst).Nodup → (name, param) ∈ L →
      (match st.1 (keyPfx idn ++ name) with
       | some avg =>
          (L.foldl (avgStep avgRule idn initSteps) st).1 (keyPfx idn ++ name)
              = some (avgRule avg (torch2xp param) (st.2 (keyPfx idn ++ name) + 1)) ∧
          (L.foldl (avgStep avgRule idn initSteps) st).2 (keyPfx idn ++ name)
              = st.2 (keyPfx idn ++ name) + 1
       | none =>
          (L.foldl (avgStep avgRule idn initSteps) st).1 (keyPfx idn ++ name)
              = some (arrCopy (torch2xp param)) ∧
          (L.foldl (avgStep avgRule idn initSteps) st).2 (keyPfx idn ++ name) = initSteps) := by
  intro L
  induction L with
  | nil => intro st name param _ hmem; simp at hmem
  | cons e t ih =>
    intro st name param hnd hmem
    rw [List.map_cons, List.nodup_cons] at hnd
    rcases List.mem_cons.mp hmem with heq | hmem'
    · have he : e = (name, param) := heq.symm
      subst he
      have hfr : ∀ e' ∈ t, keyPfx idn ++ e'.1 ≠ keyPfx idn ++ name := by
        intro e' he' hkey
        have : e'.1 = name := string_append_left_cancel hkey
        exact hnd.1 (this ▸ List.mem_map.mpr ⟨e', he', rfl⟩)
      have hstep := avgStep_at_key avgRule idn initSteps st (name, param)
      have hfold := fold_avgStep_frame avgRule idn initSteps t
        (avgStep avgRule idn initSteps st (name, param)) (keyPfx idn ++ name) hfr
      rw [List.foldl_cons]
      cases h : st.1 (keyPfx idn ++ name) with
      | some avg =>
        rw [h] at hstep
        exact ⟨hfold.1.trans hstep.1, hfold.2.trans hstep.2⟩
      | none =>
        rw [h] at hstep
        exact ⟨hfold.1.trans hstep.1, hfold.2.trans hstep.2⟩
    · have hne : keyPfx idn ++ e.1 ≠ keyPfx idn ++ name := by
        intro hkey
        have he1 : e.1 = name := string_append_left_cancel hkey
        exact hnd.1 (he1 ▸ List.mem_map.mpr ⟨(name, param), hmem', by rw [← he1]⟩)
      have hfr := avgStep_frame avgRule idn initSteps st e (keyPfx idn ++ name) hne
      have hih := ih (avgStep avgRule idn initSteps st e) name param hnd.2 hmem'
      rw [List.foldl_cons]
      rw [hfr.1, hfr.2] at hih
      exact hih


/-- C7: parameter-averaging bookkeeping.  When the averages store is absent
the operation is a no-op (neither `averages` nor `nr_update` is touched).
When it is present, then for every named parameter of the model (under
pairwise-distinct parameter names): if the namespaced key has no running
average yet, the average is initialized to an exact copy of the current
parameter value and the update counter is set to the starting value 1 (the
default of `init_steps`); if it already has one, the counter is incremented
and the average is updated via the moving-average rule of the array backend
parameterized by the incremented count. -/
theorem C7_update_averages (avgRule : Arr → Arr → Nat → Arr) (shim : ShimState)
    (sgd : Optimizer) :
    (sgd.averages = none → updatePytorchAverages avgRule shim sgd 1 = sgd) ∧
    (∀ (A : String → Option Arr) (name : String) (param : Tensor),
      sgd.averages = some A →
      (shim.model.state_dict.map Prod.fst).Nodup →
      (name, param) ∈ shim.model.state_dict →
      (A (keyPfx shim.id ++ name) = none →
        avgLookup (updatePytorchAverages avgRule shim sgd 1) (keyPfx shim.id ++ name)
            = some (arrCopy (torch2xp param)) ∧
        (updatePytorchAverages avgRule shim sgd 1).nr_update (keyPfx shim.id ++ name) = 1) ∧
      (∀ avg, A (keyPfx shim.id ++ name) = some avg →
        avgLookup (updatePytorchAverages avgRule shim sgd 1) (keyPfx shim.id ++ name)
            = some (avgRule avg (torch2xp param)
                (sgd.nr_update (keyPfx shim.id ++ name) + 1)) ∧
        (updatePytorchAverages avgRule shim sgd 1).nr_update (keyPfx shim.id ++ name)
            = sgd.nr_update (keyPfx shim.id ++ name) + 1)) := by
  constructor
  · intro h
    unfold updatePytorchAverages
    rw [h]
  · intro A name param hA hnd hmem
    have hupd : updatePytorchAverages avgRule shim sgd 1
        = { sgd with
            averages := some (shim.model.state_dict.foldl (avgStep avgRule shim.id 1)
              (A, sgd.nr_update)).1
            nr_update := (shim.model.state_dict.foldl (avgStep avgRule shim.id 1)
              (A, sgd.nr_update)).2 } := by
      unfold updatePytorchAverages
      rw [hA]
    have hfold := fold_avgStep_at_key avgRule shim.id 1 shim.model.state_dict
      (A, sgd.nr_update) name param hnd hmem
    simp only at hfold
    constructor
    · intro hnone
      rw [hnone] at hfold
      rw [hupd]
      exact ⟨hfold.1, hfold.2⟩
    · intro avg hsome
      rw [hsome] at hfold
      rw [hupd]
      exact ⟨hfold.1, hfold.2⟩

/-- Witness for C7: the no-op case, the initialization case and the
increment-and-update case, at a concrete shim and a concrete moving-average
rule. -/
theorem C7_update_averages_witness :
    updatePytorchAverages (fun a p n => a ++ p ++ [n]) shim0 sgdNoAvg 1 = sgdNoAvg ∧
    (avgLookup (updatePytorchAverages (fun a p n => a ++ p ++ [n]) shim0 sgdEmptyAvg 1)
        (keyPfx 1 ++ "w") = some (arrCopy (torch2xp [0])) ∧
     (updatePytorchAverages (fun a p n => a ++ p ++ [n]) shim0 sgdEmptyAvg 1).nr_update
        (keyPfx 1 ++ "w") = 1) ∧
    (avgLookup (updatePytorchAverages (fun a p n => a ++ p ++ [n]) shim0 sgdOneAvg 1)
        (keyPfx 1 ++ "w")
        = some ((fun (a p : Arr) (n : Nat) => a ++ p ++ [n]) [4] (torch2xp [0])
            (sgdOneAvg.nr_update (keyPfx 1 ++ "w") + 1)) ∧
     (updatePytorchAverages (fun a p n => a ++ p ++ [n]) shim0 sgdOneAvg 1).nr_update
        (keyPfx 1 ++ "w") = sgdOneAvg.nr_update (keyPfx 1 ++ "w") + 1) :=
  ⟨(C7_update_averages (fun a p n => a ++ p ++ [n]) shim0 sgdNoAvg).1 rfl,
   ((C7_update_averages (fun a p n => a ++ p ++ [n]) shim0 sgdEmptyAvg).2
      (fun _ => none) "w" [0] rfl (by decide) (by decide)).1 rfl,
   ((C7_update_averages (fun a p n => a ++ p ++ [n]) shim0 sgdOneAvg).2
      (fun x => if x = "pytorch_1_w" then some [4] else none) "w" [0] rfl
      (by decide) (by decide)).2 [4] (by decide)⟩


/-! ## Lazy optimizer singleton (C5) -/

lemma optClsAndArgs_adam (sgd : Optimizer) (h1 : sgd.b1 ≠ 0) (h2 : sgd.b2 ≠ 0) :
    optClsAndArgs sgd
      = Except.ok ((if sgd.L2_is_weight_decay then OptCls.AdamW else OptCls.Adam),
          adamArgs sgd) := by
  unfold optClsAndArgs
  rw [if_pos ⟨h1, h2⟩]
  rfl

lemma groupUpdate_adam (g : OptArgs) (hm : g.momentum = none) (sgd : Optimizer) :
    groupUpdate g (adamArgs sgd) = adamArgs sgd := by
  unfold groupUpdate adamArgs
  simp [hm]

lemma runFinishUpdates_inv (stepFn : PTOptimizer → TModel → TModel)
    (clipFn : ℚ → TModel → TModel) (avgRule : Arr → Arr → Nat → Arr) :
    ∀ (sgds : List Optimizer) (shim : ShimState) (opt : PTOptimizer) (s₀ : Optimizer),
      shim.optimizer = some opt →
      opt.param_groups = [adamArgs s₀] →
      (∀ s ∈ sgds, s.b1 ≠ 0 ∧ s.b2 ≠ 0) →
      ∃ shim' opt',
        runFinishUpdates stepFn clipFn avgRule shim sgds = Except.ok shim' ∧
        shim'.nr_constructed = shim.nr_constructed ∧
        shim'.optimizer = some opt' ∧
        opt'.cls = opt.cls ∧
        opt'.bound_params = opt.bound_params ∧
        opt'.param_groups = [adamArgs (sgds.getLastD s₀)] := by
  intro sgds
  induction sgds with
  | nil =>
    intro shim opt s₀ ho hg _
    exact ⟨shim, opt, rfl, rfl, ho, rfl, rfl, by rw [hg]; rfl⟩
  | cons s rest ih =>
    intro shim opt s₀ ho hg hA
    have hs := hA s (List.mem_cons_self s rest)
    have hpg1 : opt.param_groups.map (fun g => groupUpdate g (adamArgs s)) = [adamArgs s] := by
      rw [hg]
      show [groupUpdate (adamArgs s₀) (adamArgs s)] = [adamArgs s]
      rw [groupUpdate_adam (adamArgs s₀) rfl s]
    have hget : getPytorchOptimizer shim s
        = Except.ok
            ({ opt with param_groups := [adamArgs s] },
             { shim with optimizer := some { opt with param_groups := [adamArgs s] } }) := by
      unfold getPytorchOptimizer
      rw [optClsAndArgs_adam s hs.1 hs.2, ho]
      simp only [hpg1]
    have hfu : finish_update stepFn clipFn avgRule shim s
        = Except.ok
            ({ shim with
                optimizer := some { opt with param_groups := [adamArgs s] }
                model := stepFn { opt with param_groups := [adamArgs s] }
                  (if s.grad_clip ≠ 0 then clipFn s.grad_clip shim.model else shim.model) },
             updatePytorchAverages avgRule
               { shim with
                  optimizer := some { opt with param_groups := [adamArgs s] }
                  model := stepFn { opt with param_groups := [adamArgs s] }
                    (if s.grad_clip ≠ 0 then clipFn s.grad_clip shim.model else shim.model) }
               s 1) := by
      unfold finish_update
      rw [hget]
    have hrun : runFinishUpdates stepFn clipFn avgRule shim (s :: rest)
        = runFinishUpdates stepFn clipFn avgRule
            { shim with
               optimizer := some { opt with param_groups := [adamArgs s] }
               model := stepFn { opt with param_groups := [adamArgs s] }
                 (if s.grad_clip ≠ 0 then clipFn s.grad_clip shim.model else shim.model) }
            rest := by
      show (match finish_update stepFn clipFn avgRule shim s with
            | Except.error e => Except.error e
            | Except.ok (shim', _) => runFinishUpdates stepFn clipFn avgRule shim' rest)
          = _
      rw [hfu]
    obtain ⟨shim', opt', hrun', hnr, hopt, hcls, hbp, hpg⟩ :=
      ih { shim with
             optimizer := some { opt with param_groups := [adamArgs s] }
             model := stepFn { opt with param_groups := [adamArgs s] }
               (if s.grad_clip ≠ 0 then clipFn s.grad_clip shim.model else shim.model) }
        { opt with param_groups := [adamArgs s] } s rfl rfl
        (fun s' hs' => hA s' (List.mem_cons_of_mem s hs'))
    refine ⟨shim', opt', ?_, ?_, hopt, hcls, hbp, ?_⟩
    · rw [hrun]; exact hrun'
    · exact hnr
    · rw [hpg, List.getLastD_cons]

/-- C5: across a nonempty sequence of `finish_update` calls on one shim that
starts with no foreign optimizer, each call selecting the Adam family (both
moment coefficients nonzero, so that the broken non-Adam branch is not
taken), exactly one foreign optimizer object is constructed — bound to the
full set of the parameter names of the model at the time of the first call — and
after the sequence the parameter group of the single optimizer holds the
hyperparameters derived from the optimizer values of the LAST call. -/
theorem C5_lazy_optimizer_singleton (stepFn : PTOptimizer → TModel → TModel)
    (clipFn : ℚ → TModel → TModel) (avgRule : Arr → Arr → Nat → Arr)
    (shim : ShimState) (sgds : List Optimizer)
    (h0 : shim.optimizer = none) (h1 : shim.nr_constructed = 0)
    (hne : sgds ≠ [])
    (hA : ∀ s ∈ sgds, s.b1 ≠ 0 ∧ s.b2 ≠ 0) :
    ∃ shim' opt',
      runFinishUpdates stepFn clipFn avgRule shim sgds = Except.ok shim' ∧
      shim'.nr_constructed = 1 ∧
      shim'.optimizer = some opt' ∧
      opt'.bound_params = shim.model.state_dict.map Prod.fst ∧
      opt'.param_groups = [adamArgs (sgds.getLast hne)] := by
  rcases sgds with _ | ⟨s, rest⟩
  · exact absurd rfl hne
  · have hs := hA s (List.mem_cons_self s rest)
    have hget : getPytorchOptimizer shim s
        = Except.ok
            (⟨if s.L2_is_weight_decay then OptCls.AdamW else OptCls.Adam,
              shim.model.state_dict.map Prod.fst, [adamArgs s]⟩,
             { shim with
                optimizer := some ⟨if s.L2_is_weight_decay then OptCls.AdamW else OptCls.Adam,
                  shim.model.state_dict.map Prod.fst, [adamArgs s]⟩
                nr_constructed := shim.nr_constructed + 1 }) := by
      unfold getPytorchOptimizer
      rw [optClsAndArgs_adam s hs.1 hs.2, h0]
    have hfu : finish_update stepFn clipFn avgRule shim s
        = Except.ok
            ({ shim with
                optimizer := some ⟨if s.L2_is_weight_decay then OptCls.AdamW else OptCls.Adam,
                  shim.model.state_dict.map Prod.fst, [adamArgs s]⟩
                nr_constructed := shim.nr_constructed + 1
                model := stepFn
                  ⟨if s.L2_is_weight_decay then OptCls.AdamW else OptCls.Adam,
                    shim.model.state_dict.map Prod.fst, [adamArgs s]⟩
                  (if s.grad_clip ≠ 0 then clipFn s.grad_clip shim.model else shim.model) },
             updatePytorchAverages avgRule
               { shim with
                  optimizer := some ⟨if s.L2_is_weight_decay then OptCls.AdamW else OptCls.Adam,
                    shim.model.state_dict.map Prod.fst, [adamArgs s]⟩
                  nr_constructed := shim.nr_constructed + 1
                  model := stepFn
                    ⟨if s.L2_is_weight_decay then OptCls.AdamW else OptCls.Adam,
                      shim.model.state_dict.map Prod.fst, [adamArgs s]⟩
                    (if s.grad_clip ≠ 0 then clipFn s.grad_clip shim.model else shim.model) }
               s 1) := by
      unfold finish_update
      rw [hget]
    have hrun : runFinishUpdates stepFn clipFn avgRule shim (s :: rest)
        = runFinishUpdates stepFn clipFn avgRule
            { shim with
               optimizer := some ⟨if s.L2_is_weight_decay then OptCls.AdamW else OptCls.Adam,
                 shim.model.state_dict.map Prod.fst, [adamArgs s]⟩
               nr_constructed := shim.nr_constructed + 1
               model := stepFn
                 ⟨if s.L2_is_weight_decay then OptCls.AdamW else OptCls.Adam,
                   shim.model.state_dict.map Prod.fst, [adamArgs s]⟩
                 (if s.grad_clip ≠ 0 then clipFn s.grad_clip shim.model else shim.model) }
            rest := by
      show (match finish_update stepFn clipFn avgRule shim s with
            | Except.error e => Except.error e
            | Except.ok (shim', _) => runFinishUpdates stepFn clipFn avgRule shim' rest)
          = _
      rw [hfu]
    obtain ⟨shim', opt', hrun', hnr, hopt, hcls, hbp, hpg⟩ :=
      runFinishUpdates_inv stepFn clipFn avgRule rest
        { shim with
           optimizer := some ⟨if s.L2_is_weight_decay then OptCls.AdamW else OptCls.Adam,
             shim.model.state_dict.map Prod.fst, [adamArgs s]⟩
           nr_constructed := shim.nr_constructed + 1
           model := stepFn
             ⟨if s.L2_is_weight_decay then OptCls.AdamW else OptCls.Adam,
               shim.model.state_dict.map Prod.fst, [adamArgs s]⟩
             (if s.grad_clip ≠ 0 then clipFn s.grad_clip shim.model else shim.model) }
        ⟨if s.L2_is_weight_decay then OptCls.AdamW else OptCls.Adam,
          shim.model.state_dict.map Prod.fst, [adamArgs s]⟩ s rfl rfl
        (fun s' hs' => hA s' (List.mem_cons_of_mem s hs'))
    refine ⟨shim', opt', ?_, ?_, hopt, ?_, ?_⟩
    · rw [hrun]; exact hrun'
    · rw [hnr]; show shim.nr_constructed + 1 = 1; rw [h1]
    · rw [hbp]
    · rw [hpg]
      rw [List.getLast_eq_getLastD]


/-- Witness for C5: two consecutive `finish_update` calls with different
`learn_rate` values on a fresh shim. -/
theorem C5_lazy_optimizer_singleton_witness :
    ∃ shim' opt',
      runFinishUpdates (fun _ m => m) (fun _ m => m) (fun a _ _ => a) shim0
          [sgdNoAvg, sgdLr2] = Except.ok shim' ∧
      shim'.nr_constructed = 1 ∧
      shim'.optimizer = some opt' ∧
      opt'.bound_params = shim0.model.state_dict.map Prod.fst ∧
      opt'.param_groups
        = [adamArgs (([sgdNoAvg, sgdLr2] : List Optimizer).getLast
            (List.cons_ne_nil sgdNoAvg [sgdLr2]))] :=
  C5_lazy_optimizer_singleton (fun _ m => m) (fun _ m => m) (fun a _ _ => a) shim0
    [sgdNoAvg, sgdLr2] rfl rfl (List.cons_ne_nil sgdNoAvg [sgdLr2])
    (by
      intro s hs
      rcases List.mem_cons.mp hs with rfl | hs'
      · exact ⟨one_ne_zero, one_ne_zero⟩
      · rcases List.mem_cons.mp hs' with rfl | hs''
        · exact ⟨one_ne_zero, one_ne_zero⟩
        · simp at hs'')


end ThincPT
